import Mathlib

/-!
# Verification of the twitter-paper-feed pipeline (src/monitor.py)

Shallow embedding of the identifier-resolution and metadata-enrichment
pipeline of `src/monitor.py`.  Network effects are modelled by explicit
oracles describing the outcome of each HTTP call (either an exception or
a response value); Python exceptions that the code catches are modelled
by the corresponding `raise` branches of those oracles, and exceptions
that a function can propagate are modelled with `Except`.  Strings are
Lean `String`s / `List Char`; Python's `re.search` for the two concrete
regular expressions used by the code is implemented character by
character with the exact leftmost/greedy semantics of those patterns.
-/

set_option maxHeartbeats 1000000

namespace PaperFeed

/-- Character class `[-._;()/:A-Za-z0-9]` of the DOI regex at
monitor.py line 85 (`\d` is modelled as ASCII digits). -/
def isDoiChar (c : Char) : Bool :=
  c == '-' || c == '.' || c == '_' || c == ';' || c == '(' || c == ')' ||
  c == '/' || c == ':' ||
  (decide ('A' ≤ c) && decide (c ≤ 'Z')) ||
  (decide ('a' ≤ c) && decide (c ≤ 'z')) ||
  (decide ('0' ≤ c) && decide (c ≤ '9'))

/-- Attempt of the regex `10\.\d{4,9}/[-._;()/:A-Za-z0-9]+` anchored at the
head of `s`, with Python's greedy semantics.  Since `/` is not a digit, the
quantifier `\d{4,9}` can only succeed by consuming the whole leading digit
run (4 to 9 digits); the final `+` is greedy with nothing after it. -/
def tryDoiAt (s : List Char) : Option (List Char) :=
  match s with
  | '1' :: '0' :: '.' :: rest =>
    if 4 ≤ (rest.takeWhile Char.isDigit).length ∧
        (rest.takeWhile Char.isDigit).length ≤ 9 then
      match rest.drop (rest.takeWhile Char.isDigit).length with
      | '/' :: tail =>
        match tail.takeWhile isDoiChar with
        | [] => none
        | c :: run =>
          some ('1' :: '0' :: '.' :: (rest.takeWhile Char.isDigit ++ '/' :: c :: run))
      | _ => none
    else none
  | _ => none

/-- `re.search` of the DOI pattern: try each start position left to right. -/
def searchDoi : List Char → Option (List Char)
  | [] => none
  | c :: t =>
    match tryDoiAt (c :: t) with
    | some r => some r
    | none => searchDoi t

/-- Full match of the DOI pattern `10\.\d{4,9}/[-._;()/:A-Za-z0-9]+`
against the whole list `l`. -/
def fullmatchDoi (l : List Char) : Bool :=
  match l with
  | '1' :: '0' :: '.' :: rest =>
    decide (4 ≤ (rest.takeWhile Char.isDigit).length) &&
    decide ((rest.takeWhile Char.isDigit).length ≤ 9) &&
    (match rest.drop (rest.takeWhile Char.isDigit).length with
     | '/' :: tail => !tail.isEmpty && tail.all isDoiChar
     | _ => false)
  | _ => false

/-- The literal part of the stage-3 regex
`<meta name="citation_doi" content="([^"]+)"` (monitor.py line 99). -/
def metaLit : List Char := String.toList "<meta name=\"citation_doi\" content=\""

/-- Attempt of the stage-3 meta regex anchored at the head of `s`: the
literal, then one or more non-quote characters (greedy), then a quote. -/
def tryMetaAt (s : List Char) : Option (List Char) :=
  if metaLit.isPrefixOf s then
    match (s.drop metaLit.length).takeWhile (fun c => !(c == '"')) with
    | [] => none
    | c :: run =>
      if ((s.drop metaLit.length).drop (c :: run).length).isEmpty then none
      else some (c :: run)
  else none

/-- `re.search` of the stage-3 meta regex. -/
def searchMeta : List Char → Option (List Char)
  | [] => none
  | c :: t =>
    match tryMetaAt (c :: t) with
    | some r => some r
    | none => searchMeta t

/-- Outcome of one HTTP call: an exception, or a normal return value. -/
inductive NetOutcome (α : Type) where
  | raise : NetOutcome α
  | ok : α → NetOutcome α

/-- `extract_doi` (monitor.py lines 78-104).  `o2 url` is the outcome of
`requests.head(url, allow_redirects=True).url` (the final redirect URL),
`o3 url` the outcome of `requests.get(url).text`.  The two
`try/except: pass` blocks of the source appear as the `raise` branches,
which fall through to the next stage / to `None`. -/
def extractDoi (o2 o3 : String → NetOutcome String) (url : String) : Option String :=
  match searchDoi url.toList with
  | some r => some (String.mk r)
  | none =>
    match (match o2 url with
           | NetOutcome.raise => none
           | NetOutcome.ok finalUrl => searchDoi finalUrl.toList) with
    | some r => some (String.mk r)
    | none =>
      match o3 url with
      | NetOutcome.raise => none
      | NetOutcome.ok html => (searchMeta html.toList).map String.mk

/-- Stage 1 produces a match on `url` itself. -/
def stage1Hit (url : String) : Bool := (searchDoi url.toList).isSome

/-- Stage 2 produces a match: the HEAD request succeeds and the final
redirect URL matches the DOI pattern. -/
def stage2Hit (o2 : String → NetOutcome String) (url : String) : Bool :=
  match o2 url with
  | NetOutcome.raise => false
  | NetOutcome.ok finalUrl => (searchDoi finalUrl.toList).isSome

/-- Stage 3 produces a match: the GET succeeds and the body contains a
`citation_doi` meta declaration. -/
def stage3Hit (o3 : String → NetOutcome String) (url : String) : Bool :=
  match o3 url with
  | NetOutcome.raise => false
  | NetOutcome.ok html => (searchMeta html.toList).isSome

example : searchDoi (String.toList "see https://doi.org/10.1000/xyz123 x") =
    some (String.toList "10.1000/xyz123") := by decide

example : searchDoi (String.toList "https://example.org/paper") = none := by decide

example : searchMeta (String.toList "<meta name=\"citation_doi\" content=\"zzz\">") =
    some (String.toList "zzz") := by decide

example : fullmatchDoi (String.toList "10.1000/xyz123") = true := by decide

example : fullmatchDoi (String.toList "zzz") = false := by decide

/-! ## Cursor (the since_id file) -/

/-- Python's default whitespace characters relevant to `str.strip()`
(ASCII portion). -/
def isPySpace (c : Char) : Bool :=
  c == ' ' || c == '\t' || c == '\n' || c == '\r' || c == '\x0b' || c == '\x0c'

/-- `text.strip()` on a character list. -/
def trimChars (l : List Char) : List Char :=
  ((l.dropWhile isPySpace).reverse.dropWhile isPySpace).reverse

/-- Numeric value of an ASCII digit character. -/
def digitVal (c : Char) : Nat := c.toNat - 48

/-- Decimal value of a digit string. -/
def charsVal (l : List Char) : Nat := l.foldl (fun a c => 10 * a + digitVal c) 0

/-- `int(text)` of monitor.py line 64 on the strings the program itself
writes (nonnegative decimal numerals); anything that is not a plain digit
string raises `ValueError`, modelled as `none`. -/
def charsToNat (l : List Char) : Option Nat :=
  if l.isEmpty then none
  else if l.all Char.isDigit then some (charsVal l) else none

/-- `str(n)` for a natural number (tweet ids are nonnegative). -/
def natToChars (n : Nat) : List Char :=
  if n < 10 then [Nat.digitChar n]
  else natToChars (n / 10) ++ [Nat.digitChar (n % 10)]
  termination_by n
  decreasing_by exact Nat.div_lt_self (by omega) (by omega)

/-- `SINCE_ID_FILE.write_text(str(v))` (monitor.py line 73).  The state is
the contents of the since_id file, `none` when the file does not exist;
the write replaces whatever was stored before, unconditionally. -/
def advanceCursor (v : Nat) (_st : Option (List Char)) : Option (List Char) :=
  some (natToChars v)

/-- The read of monitor.py lines 62-66: if the file exists, parse
`int(contents.strip())`; a parse failure (`ValueError`) or a missing file
yields no since_id. -/
def readCursor (st : Option (List Char)) : Option Nat :=
  match st with
  | none => none
  | some l => charsToNat (trimChars l)

/-! ## fetch_metadata (Crossref registry) -/

/-- One `author` record of a Crossref payload; `given`/`family` may be
absent. -/
structure AuthorRec where
  given : Option String
  family : Option String
deriving DecidableEq

/-- A Crossref date object: a dict that may carry a `date-parts` list. -/
structure DateField where
  dateParts : Option (List (List Int))
deriving DecidableEq

/-- The `message` object of a Crossref works payload, with exactly the
fields `fetch_metadata` reads (plus the published-print / published-online
dates, which are present in real payloads but never read by the code). -/
structure CrossrefMsg where
  title : Option (List String)
  containerTitle : Option (List String)
  author : Option (List AuthorRec)
  issued : Option DateField
  publishedPrint : Option DateField
  publishedOnline : Option DateField
  volume : Option String
  issue : Option String
  page : Option String
  publisher : Option String
deriving DecidableEq

/-- Outcome of the registry GET of monitor.py line 112: an exception, or a
response with a status code and a parsed `message` object (`none` when the
body is not JSON with a `message` key). -/
inductive RegOutcome where
  | raise : RegOutcome
  | resp : Nat → Option CrossrefMsg → RegOutcome

/-- The Python exceptions `fetch_metadata` can propagate to `main`. -/
inductive PyErr where
  | net | http | parse | index | sheet
deriving DecidableEq

/-- The year computation of monitor.py lines 118-119:
`msg.get("issued", {}).get("date-parts", [[None]])[0][0]`.  An absent
`issued` or absent `date-parts` takes the default `[[None]]`, giving year
`None`; an empty `date-parts` list or an empty first component raises
`IndexError`. -/
def getYear (msg : CrossrefMsg) : Except PyErr (Option Int) :=
  match msg.issued with
  | none => Except.ok none
  | some d =>
    match d.dateParts with
    | none => Except.ok none
    | some [] => Except.error PyErr.index
    | some (first :: _) =>
      match first with
      | [] => Except.error PyErr.index
      | y :: _ => Except.ok (some y)

/-- `msg.get(field, [""])[0]` (monitor.py lines 115-116): absent field
defaults to `[""]`, a present but empty list raises `IndexError`. -/
def firstOrEmpty (f : Option (List String)) : Except PyErr String :=
  match f with
  | none => Except.ok ""
  | some [] => Except.error PyErr.index
  | some (t :: _) => Except.ok t

/-- `f"{a.get('given','')} {a.get('family','')}".strip()`
(monitor.py line 117). -/
def fmtAuthor (a : AuthorRec) : String :=
  String.mk (trimChars ((a.given.getD "" ++ " " ++ a.family.getD "").toList))

/-- The dict returned by `fetch_metadata` (monitor.py lines 120-130). -/
structure Metadata where
  title : String
  journal : String
  authors : List String
  year : Option Int
  volume : String
  issue : String
  pages : String
  publisher : String
  doi : String
deriving DecidableEq

/-- `fetch_metadata` (monitor.py lines 107-130).  `reg doi` is the outcome
of the Crossref GET.  A network exception, a 4xx/5xx status
(`raise_for_status`), a malformed payload, or an empty list where the code
indexes `[0]` all propagate as errors; otherwise the parsed record is
returned. -/
def fetchMetadataM (reg : String → RegOutcome) (doi : String) : Except PyErr Metadata :=
  match reg doi with
  | RegOutcome.raise => Except.error PyErr.net
  | RegOutcome.resp status body =>
    if 400 ≤ status ∧ status ≤ 599 then Except.error PyErr.http
    else
      match body with
      | none => Except.error PyErr.parse
      | some msg =>
        match firstOrEmpty msg.title with
        | Except.error e => Except.error e
        | Except.ok title =>
          match firstOrEmpty msg.containerTitle with
          | Except.error e => Except.error e
          | Except.ok journal =>
            match getYear msg with
            | Except.error e => Except.error e
            | Except.ok year =>
              Except.ok
                { title := title
                  journal := journal
                  authors := (msg.author.getD []).map fmtAuthor
                  year := year
                  volume := msg.volume.getD ""
                  issue := msg.issue.getD ""
                  pages := msg.page.getD ""
                  publisher := msg.publisher.getD ""
                  doi := doi }

/-- Modelled from the spec for comparison with the code only (the claim
about the year preference chain): "Year: prefer a published-in-print date;
fall back to published-online date; fall back to the generic issued date;
take the first (year) component of whichever date is found; absent if none
present." -/
def yearSpec (msg : CrossrefMsg) : Option Int :=
  match msg.publishedPrint with
  | some df =>
    match df.dateParts with
    | some ((y :: _) :: _) => some y
    | _ => yearSpecOnline msg
  | none => yearSpecOnline msg
where
  yearSpecOnline (msg : CrossrefMsg) : Option Int :=
    match msg.publishedOnline with
    | some df =>
      match df.dateParts with
      | some ((y :: _) :: _) => some y
      | _ => yearSpecIssued msg
    | none => yearSpecIssued msg
  yearSpecIssued (msg : CrossrefMsg) : Option Int :=
    match msg.issued with
    | some df =>
      match df.dateParts with
      | some ((y :: _) :: _) => some y
      | _ => none
    | none => none

/-! ## fetch_abstract -/

/-- Outcome of the Semantic Scholar GET of monitor.py line 140: an
exception, or a response with a status code, whether `r.json()` raises,
and the value of the `abstract` field (`none` for absent or JSON null). -/
inductive PrimaryOutcome where
  | raise : PrimaryOutcome
  | resp : Nat → Bool → Option String → PrimaryOutcome

/-- Outcome of the Crossref XML GET of monitor.py line 150: an exception,
or a response with a status code, whether `ET.fromstring` raises, and the
text of the `.//abstract` element when one is found. -/
inductive SecondaryOutcome where
  | raise : SecondaryOutcome
  | resp : Nat → Bool → Option String → SecondaryOutcome

/-- The value the primary stage returns early (monitor.py lines 139-146):
a 200 response whose JSON carries a truthy (non-`None`, nonempty)
`abstract` field; every other situation — exception anywhere in the
`try`, non-200 status, falsy field — falls through. -/
def primVal (p : PrimaryOutcome) : Option String :=
  match p with
  | PrimaryOutcome.raise => none
  | PrimaryOutcome.resp status jsonRaise ab =>
    if status = 200 then
      if jsonRaise then none
      else
        match ab with
        | some a => if a = "" then none else some a
        | none => none
    else none

/-- The value the secondary stage returns (monitor.py lines 148-157): on a
200 response that parses, the stripped text of the `abstract` element when
one is found (which may be the empty string); otherwise nothing. -/
def secVal (s : SecondaryOutcome) : Option String :=
  match s with
  | SecondaryOutcome.raise => none
  | SecondaryOutcome.resp status parseRaise el =>
    if status = 200 then
      if parseRaise then none
      else el.map (fun t => String.mk (trimChars t.toList))
    else none

/-- `fetch_abstract` (monitor.py lines 133-158): the primary value when the
primary stage yields one, else the secondary value, else `""`.  Totality
over all outcome constructors (including both `raise`s) embeds the
`try/except` blocks: no combination of failures escapes the function. -/
def fetchAbstract (p : PrimaryOutcome) (s : SecondaryOutcome) : String :=
  match primVal p with
  | some a => a
  | none => (secVal s).getD ""

/-- The primary service yielded a (truthy) abstract. -/
def primYields (p : PrimaryOutcome) : Bool := (primVal p).isSome

/-- The secondary service yielded a nonempty abstract text. -/
def secYields (s : SecondaryOutcome) : Bool := ((secVal s).getD "") != ""

/-! ## Orchestrator (main, monitor.py lines 186-221) -/

/-- One tweet as the pipeline sees it: its id and the expanded URLs of its
entities. -/
structure Tweet where
  id : Nat
  urls : List String

/-- The bundle of external-service behaviours one run executes against. -/
structure Orc where
  o2 : String → NetOutcome String
  o3 : String → NetOutcome String
  reg : String → RegOutcome
  prim : String → PrimaryOutcome
  sec : String → SecondaryOutcome
  appendOk : String → Bool

/-- The row `append_row` sends to the sheet (monitor.py lines 173-181). -/
structure OutputRow where
  title : String
  authors : String
  journal : String
  year : Option Int
  doi : String
  abstract : String
  source : String
deriving DecidableEq

/-- Row assembly of `append_row`: authors joined with `"; "`. -/
def mkRow (m : Metadata) (ab : String) (src : String) : OutputRow :=
  { title := m.title
    authors := String.intercalate "; " m.authors
    journal := m.journal
    year := m.year
    doi := m.doi
    abstract := ab
    source := src }

/-- What happened to one URL: skipped for lack of a DOI (logged at info
level), a row appended, or an exception caught by the per-item
`try/except` (logged as an error). -/
inductive ItemOutcome where
  | noDoi : ItemOutcome
  | appended : OutputRow → ItemOutcome
  | failed : PyErr → ItemOutcome
deriving DecidableEq

/-- Processing of a single URL (monitor.py lines 195-204 / 211-221):
resolve a DOI (skip when falsy), then inside the `try` fetch metadata and
abstract and append; any exception there becomes a logged failure. -/
def processItem (orc : Orc) (url : String) (src : String) : ItemOutcome :=
  match extractDoi orc.o2 orc.o3 url with
  | none => ItemOutcome.noDoi
  | some doi =>
    if doi = "" then ItemOutcome.noDoi
    else
      match fetchMetadataM orc.reg doi with
      | Except.error e => ItemOutcome.failed e
      | Except.ok m =>
        if orc.appendOk url then
          ItemOutcome.appended (mkRow m (fetchAbstract (orc.prim doi) (orc.sec doi)) src)
        else ItemOutcome.failed PyErr.sheet

/-- The historical loop of monitor.py lines 190-204, with its `seen` set:
each URL not seen before is processed (with provenance the URL itself) and
marked; duplicates are skipped. -/
def histLoop (orc : Orc) (seen : List String) : List String → List (String × ItemOutcome)
  | [] => []
  | w :: rest =>
    if w ∈ seen then histLoop orc seen rest
    else (w, processItem orc w w) :: histLoop orc (w :: seen) rest

/-- The historical pass over the URLs of the historical blob. -/
def histRun (orc : Orc) (urls : List String) : List (String × ItemOutcome) :=
  histLoop orc [] urls

/-- The URLs the `seen`-set logic retains: first occurrences, in order. -/
def pyDedupAux (seen : List String) : List String → List String
  | [] => []
  | w :: rest =>
    if w ∈ seen then pyDedupAux seen rest
    else w :: pyDedupAux (w :: seen) rest

/-- First occurrence of each URL, in order. -/
def pyDedup (urls : List String) : List String := pyDedupAux [] urls

/-- The row an outcome contributed to the sheet, if any. -/
def outRow : ItemOutcome → Option OutputRow
  | ItemOutcome.appended r => some r
  | _ => none

/-- The rows a trace appended, in order. -/
def rowsOf (trace : List (String × ItemOutcome)) : List OutputRow :=
  trace.filterMap (fun p => outRow p.2)

/-- Whether an outcome appended a row. -/
def appendedB : ItemOutcome → Bool
  | ItemOutcome.appended _ => true
  | _ => false

/-- `max(t.id for t in tweets)` over a nonempty batch `t :: ts`. -/
def maxTweetId (t : Tweet) (ts : List Tweet) : Nat :=
  ts.foldl (fun m t2 => max m t2.id) t.id

/-- `fetch_new_tweets` (monitor.py lines 45-75). `userOk` is whether the
user lookup succeeds (on failure the function returns `[]` having touched
nothing); `apiResp since` is `resp.data` of the timeline call issued with
the given `since_id` parameter (`none` both for a JSON null `data` field
and for the parameter being omitted, per `resp.data or []`).  Only a
nonempty batch writes the since_id file, with the maximum id observed. -/
def fetchNewTweets (userOk : Bool) (apiResp : Option Nat → Option (List Tweet))
    (st : Option (List Char)) : List Tweet × Option (List Char) :=
  if userOk then
    match (apiResp (readCursor st)).getD [] with
    | [] => ([], st)
    | t :: ts => (t :: ts, advanceCursor (maxTweetId t ts) st)
  else ([], st)

/-- `f"https://twitter.com/{TW_USERNAME}/status/{tw.id}"`
(monitor.py line 218). -/
def permalink (handle : String) (t : Tweet) : String :=
  "https://twitter.com/" ++ handle ++ "/status/" ++ toString t.id

/-- The (url, provenance) pairs the live loop iterates over, in order. -/
def liveItems (handle : String) : List Tweet → List (String × String)
  | [] => []
  | t :: ts => t.urls.map (fun u => (u, permalink handle t)) ++ liveItems handle ts

/-- The live loop of monitor.py lines 208-221: every expanded URL of every
fetched tweet is processed, with the tweet permalink as provenance. -/
def liveTrace (orc : Orc) (handle : String) (tweets : List Tweet) :
    List (String × ItemOutcome) :=
  (liveItems handle tweets).map (fun p => (p.1, processItem orc p.1 p.2))

/-- The live pass: fetch (which is when the cursor write happens), then
process each URL. -/
def liveRun (orc : Orc) (handle : String) (userOk : Bool)
    (apiResp : Option Nat → Option (List Tweet)) (st : Option (List Char)) :
    List (String × ItemOutcome) × Option (List Char) :=
  ((liveTrace orc handle (fetchNewTweets userOk apiResp st).1),
    (fetchNewTweets userOk apiResp st).2)

/-- All expanded URLs of a batch of tweets, in processing order. -/
def allUrls : List Tweet → List String
  | [] => []
  | t :: ts => t.urls ++ allUrls ts

/-! ## Helper lemmas: the DOI regex -/

lemma takeWhile_append_eq (p : Char → Bool) :
    ∀ (a b : List Char), (∀ c ∈ a, p c = true) →
      (∀ c, b.head? = some c → p c = false) → (a ++ b).takeWhile p = a := by
  intro a
  induction a with
  | nil =>
    intro b _ hb
    cases b with
    | nil => rfl
    | cons c t => simp [List.takeWhile_cons, hb c rfl]
  | cons x xs ih =>
    intro b ha hb
    have hx : p x = true := ha x (by simp)
    have hxs := ih b (fun c hc => ha c (by simp [hc])) hb
    simp [List.cons_append, List.takeWhile_cons, hx, hxs]

lemma drop_takeWhile_len (p : Char → Bool) : ∀ (l : List Char),
    l.drop (l.takeWhile p).length = l.dropWhile p := by
  intro l
  induction l with
  | nil => rfl
  | cons c t ih =>
    by_cases hc : p c = true
    · simp [List.takeWhile_cons, List.dropWhile_cons, hc, ih]
    · simp only [Bool.not_eq_true] at hc
      simp [List.takeWhile_cons, List.dropWhile_cons, hc]

lemma fullmatchDoi_cons (rest : List Char) :
    fullmatchDoi ('1' :: '0' :: '.' :: rest) =
      (decide (4 ≤ (rest.takeWhile Char.isDigit).length) &&
       decide ((rest.takeWhile Char.isDigit).length ≤ 9) &&
       (match rest.drop (rest.takeWhile Char.isDigit).length with
        | '/' :: tail => !tail.isEmpty && tail.all isDoiChar
        | _ => false)) := rfl

lemma tryDoiAt_cons (rest : List Char) :
    tryDoiAt ('1' :: '0' :: '.' :: rest) =
      (if 4 ≤ (rest.takeWhile Char.isDigit).length ∧
          (rest.takeWhile Char.isDigit).length ≤ 9 then
        match rest.drop (rest.takeWhile Char.isDigit).length with
        | '/' :: tail =>
          (match tail.takeWhile isDoiChar with
           | [] => none
           | c :: run =>
             some ('1' :: '0' :: '.' :: (rest.takeWhile Char.isDigit ++ '/' :: c :: run)))
        | _ => none
      else none) := rfl

lemma tryDoiAt_sound {s r : List Char} (h : tryDoiAt s = some r) :
    fullmatchDoi r = true ∧ r <+: s := by
  unfold tryDoiAt at h
  split at h
  case _ rest =>
    split at h
    case isTrue hcond =>
      split at h
      case _ tail heq =>
        split at h
        case _ => exact absurd h (by simp)
        case _ c run heq2 =>
          have hr : r = '1' :: '0' :: '.' ::
              (rest.takeWhile Char.isDigit ++ '/' :: c :: run) := by
            exact (Option.some.injEq _ _ ▸ h).symm
          subst hr
          have hds : ∀ x ∈ rest.takeWhile Char.isDigit, Char.isDigit x = true :=
            fun x hx => List.mem_takeWhile_imp hx
          have htw : ((rest.takeWhile Char.isDigit) ++ '/' :: c :: run).takeWhile
              Char.isDigit = rest.takeWhile Char.isDigit := by
            refine takeWhile_append_eq _ _ _ hds ?_
            intro d hd
            simp at hd
            subst hd
            rfl
          have hdr : ((rest.takeWhile Char.isDigit) ++ '/' :: c :: run).drop
              (rest.takeWhile Char.isDigit).length = '/' :: c :: run :=
            List.drop_left _ _
          have hall : ∀ x ∈ c :: run, isDoiChar x = true := by
            intro x hx
            have : x ∈ tail.takeWhile isDoiChar := by rw [heq2]; exact hx
            exact List.mem_takeWhile_imp this
          constructor
          · rw [fullmatchDoi_cons, htw, hdr]
            simp only [List.isEmpty_cons, Bool.not_false, Bool.true_and,
              Bool.and_eq_true, decide_eq_true_eq, List.all_eq_true]
            exact ⟨⟨hcond.1, hcond.2⟩, hall⟩
          · -- r is a prefix of s
            have hdw : rest.dropWhile Char.isDigit = '/' :: tail := by
              rw [← drop_takeWhile_len Char.isDigit rest]; exact heq
            have hrest : rest = rest.takeWhile Char.isDigit ++ '/' :: tail := by
              conv_lhs => rw [← List.takeWhile_append_dropWhile
                (p := Char.isDigit) (l := rest)]
              rw [hdw]
            have htailpre : (c :: run) <+: tail := by
              rw [← heq2]; exact List.takeWhile_prefix _
            obtain ⟨w, hw⟩ := htailpre
            refine ⟨w, ?_⟩
            simp only [List.cons_append, List.cons.injEq, true_and]
            conv_rhs => rw [hrest]
            rw [← hw]
            simp [List.append_assoc]
      case _ => exact absurd h (by simp)
    case isFalse => exact absurd h (by simp)
  case _ => exact absurd h (by simp)

lemma searchDoi_sound : ∀ {s r : List Char}, searchDoi s = some r →
    fullmatchDoi r = true ∧ r <:+: s := by
  intro s
  induction s with
  | nil => intro r h; exact absurd h (by simp [searchDoi])
  | cons c t ih =>
    intro r h
    unfold searchDoi at h
    split at h
    case _ r0 htry =>
      obtain ⟨hm, hp⟩ := tryDoiAt_sound htry
      have : r0 = r := by exact (Option.some.injEq _ _ ▸ h)
      subst this
      exact ⟨hm, hp.isInfix⟩
    case _ =>
      obtain ⟨hm, hin⟩ := ih h
      refine ⟨hm, ?_⟩
      obtain ⟨u, v, huv⟩ := hin
      exact ⟨c :: u, v, by simp [← huv]⟩

lemma fullmatch_shape {t : List Char} (h : fullmatchDoi t = true) :
    ∃ rest, t = '1' :: '0' :: '.' :: rest ∧
      4 ≤ (rest.takeWhile Char.isDigit).length ∧
      (rest.takeWhile Char.isDigit).length ≤ 9 ∧
      ∃ tail, rest.drop (rest.takeWhile Char.isDigit).length = '/' :: tail ∧
        tail ≠ [] ∧ (∀ x ∈ tail, isDoiChar x = true) := by
  unfold fullmatchDoi at h
  split at h
  case _ rest =>
    refine ⟨rest, rfl, ?_⟩
    simp only [Bool.and_eq_true, decide_eq_true_eq] at h
    obtain ⟨⟨h4, h9⟩, hm⟩ := h
    refine ⟨h4, h9, ?_⟩
    revert hm
    split
    case _ tail heq =>
      intro hm
      simp only [Bool.and_eq_true, List.all_eq_true] at hm
      obtain ⟨hne, hall⟩ := hm
      refine ⟨tail, heq, ?_, hall⟩
      cases tail with
      | nil => simp at hne
      | cons a b => simp
    case _ => intro hm; exact absurd hm (by simp)
  case _ => exact absurd h (by simp)

lemma tryDoiAt_of_fullmatch {t : List Char} (h : fullmatchDoi t = true)
    (v : List Char) : ∃ r, tryDoiAt (t ++ v) = some r := by
  obtain ⟨rest, hts, h4, h9, tail, hdrop, hne, hall⟩ := fullmatch_shape h
  subst hts
  have hdw : rest.dropWhile Char.isDigit = '/' :: tail := by
    rw [← drop_takeWhile_len Char.isDigit rest]; exact hdrop
  have hrest : rest = rest.takeWhile Char.isDigit ++ '/' :: tail := by
    conv_lhs => rw [← List.takeWhile_append_dropWhile (p := Char.isDigit) (l := rest)]
    rw [hdw]
  have hds : ∀ x ∈ rest.takeWhile Char.isDigit, Char.isDigit x = true :=
    fun x hx => List.mem_takeWhile_imp hx
  obtain ⟨c, tl, htl⟩ : ∃ c tl, tail = c :: tl := by
    cases tail with
    | nil => exact absurd rfl hne
    | cons c tl => exact ⟨c, tl, rfl⟩
  subst htl
  have key : ('1' :: '0' :: '.' :: rest) ++ v =
      '1' :: '0' :: '.' :: (rest.takeWhile Char.isDigit ++ '/' :: c :: (tl ++ v)) := by
    have h2 : rest ++ v = (rest.takeWhile Char.isDigit ++ '/' :: c :: tl) ++ v :=
      congrArg (fun l => l ++ v) hrest
    simp only [List.cons_append]
    rw [h2]
    simp [List.append_assoc]
  rw [key]
  have htw : ((rest.takeWhile Char.isDigit) ++ '/' :: c :: (tl ++ v)).takeWhile
      Char.isDigit = rest.takeWhile Char.isDigit := by
    refine takeWhile_append_eq _ _ _ hds ?_
    intro d hd
    simp at hd
    subst hd
    rfl
  have hdr : ((rest.takeWhile Char.isDigit) ++ '/' :: c :: (tl ++ v)).drop
      (rest.takeWhile Char.isDigit).length = '/' :: c :: (tl ++ v) :=
    List.drop_left _ _
  have hc : isDoiChar c = true := hall c (by simp)
  rw [tryDoiAt_cons, htw, hdr, if_pos ⟨h4, h9⟩]
  show ∃ r, (match (c :: (tl ++ v)).takeWhile isDoiChar with
    | [] => none
    | c2 :: run =>
      some ('1' :: '0' :: '.' ::
        (rest.takeWhile Char.isDigit ++ '/' :: c2 :: run))) = some r
  have hstep : (c :: (tl ++ v)).takeWhile isDoiChar =
      c :: (tl ++ v).takeWhile isDoiChar := by
    simp [List.takeWhile_cons, hc]
  rw [hstep]
  exact ⟨_, rfl⟩

lemma searchDoi_complete {t : List Char} (h : fullmatchDoi t = true) :
    ∀ (u v : List Char), ∃ r, searchDoi (u ++ (t ++ v)) = some r := by
  intro u
  induction u with
  | nil =>
    intro v
    obtain ⟨r, hr⟩ := tryDoiAt_of_fullmatch h v
    obtain ⟨rest, hts, _⟩ := fullmatch_shape h
    subst hts
    simp only [List.nil_append] at *
    refine ⟨r, ?_⟩
    unfold searchDoi
    simp only [List.cons_append] at hr ⊢
    rw [hr]
  | cons c u' ih =>
    intro v
    obtain ⟨r, hr⟩ := ih v
    simp only [List.cons_append]
    unfold searchDoi
    cases htry : tryDoiAt (c :: (u' ++ (t ++ v))) with
    | some r0 => exact ⟨r0, rfl⟩
    | none => exact ⟨r, hr⟩

/-! ## Helper lemmas: the cursor -/

lemma digitChar_isDigit {d : Nat} (h : d < 10) : (Nat.digitChar d).isDigit = true := by
  interval_cases d <;> decide

lemma digitVal_digitChar {d : Nat} (h : d < 10) : digitVal (Nat.digitChar d) = d := by
  interval_cases d <;> decide

lemma natToChars_all_digit (n : Nat) : ∀ c ∈ natToChars n, Char.isDigit c = true := by
  induction n using Nat.strong_induction_on with
  | _ n ih =>
    rw [natToChars]
    split
    case isTrue h =>
      intro c hc
      simp only [List.mem_singleton] at hc
      subst hc
      exact digitChar_isDigit h
    case isFalse h =>
      intro c hc
      rw [List.mem_append] at hc
      cases hc with
      | inl hc => exact ih (n / 10) (Nat.div_lt_self (by omega) (by omega)) c hc
      | inr hc =>
        simp only [List.mem_singleton] at hc
        subst hc
        exact digitChar_isDigit (Nat.mod_lt _ (by omega))

lemma natToChars_ne_nil (n : Nat) : natToChars n ≠ [] := by
  rw [natToChars]
  split
  · simp
  · simp

lemma charsVal_natToChars (n : Nat) : charsVal (natToChars n) = n := by
  induction n using Nat.strong_induction_on with
  | _ n ih =>
    rw [natToChars]
    split
    case isTrue h =>
      show charsVal [Nat.digitChar n] = n
      unfold charsVal
      simp [digitVal_digitChar h]
    case isFalse h =>
      have hstep : charsVal (natToChars (n / 10) ++ [Nat.digitChar (n % 10)]) =
          10 * charsVal (natToChars (n / 10)) + digitVal (Nat.digitChar (n % 10)) := by
        unfold charsVal
        rw [List.foldl_append]
        rfl
      rw [hstep, ih (n / 10) (Nat.div_lt_self (by omega) (by omega)),
        digitVal_digitChar (Nat.mod_lt _ (by omega))]
      omega

lemma digit_not_space {c : Char} (h : Char.isDigit c = true) : isPySpace c = false := by
  cases hsp : isPySpace c with
  | false => rfl
  | true =>
    exfalso
    simp only [isPySpace, Bool.or_eq_true, beq_iff_eq] at hsp
    rcases hsp with ((((h1 | h1) | h1) | h1) | h1) | h1 <;> subst h1 <;> simp at h

lemma dropWhile_digits {l : List Char} (h : ∀ c ∈ l, Char.isDigit c = true) :
    l.dropWhile isPySpace = l := by
  cases l with
  | nil => rfl
  | cons c t => simp [List.dropWhile_cons, digit_not_space (h c (by simp))]

lemma trim_digits {l : List Char} (h : ∀ c ∈ l, Char.isDigit c = true) :
    trimChars l = l := by
  unfold trimChars
  rw [dropWhile_digits h]
  rw [dropWhile_digits (fun c hc => h c (List.mem_reverse.mp hc))]
  exact List.reverse_reverse l

lemma readCursor_advance (v : Nat) (st : Option (List Char)) :
    readCursor (advanceCursor v st) = some v := by
  show charsToNat (trimChars (natToChars v)) = some v
  rw [trim_digits (natToChars_all_digit v)]
  unfold charsToNat
  rw [if_neg (by simpa using natToChars_ne_nil v)]
  rw [if_pos (List.all_eq_true.mpr (natToChars_all_digit v))]
  rw [charsVal_natToChars]

/-! ## Helper lemmas: the orchestrator -/

lemma histLoop_map_fst (orc : Orc) : ∀ (us seen : List String),
    (histLoop orc seen us).map Prod.fst = pyDedupAux seen us := by
  intro us
  induction us with
  | nil => intro seen; rfl
  | cons w rest ih =>
    intro seen
    by_cases hw : w ∈ seen <;> simp [histLoop, pyDedupAux, hw, ih]

lemma liveItems_map_fst (handle : String) : ∀ (ts : List Tweet),
    (liveItems handle ts).map Prod.fst = allUrls ts := by
  intro ts
  induction ts with
  | nil => rfl
  | cons t ts ih =>
    simp only [liveItems, allUrls, List.map_append, ih, List.map_map]
    have hcomp : (Prod.fst ∘ fun u : String => (u, permalink handle t)) = id := rfl
    rw [hcomp, List.map_id]

lemma liveTrace_map_fst (orc : Orc) (handle : String) (tweets : List Tweet) :
    (liveTrace orc handle tweets).map Prod.fst = allUrls tweets := by
  unfold liveTrace
  rw [List.map_map]
  have hcomp : (Prod.fst ∘ fun p : String × String =>
      (p.1, processItem orc p.1 p.2)) = Prod.fst := by
    funext p
    rfl
  rw [hcomp, liveItems_map_fst]

lemma outRow_source (orc : Orc) (url src : String) {r : OutputRow}
    (h : outRow (processItem orc url src) = some r) : r.source = src := by
  unfold processItem at h
  split at h
  case _ => simp [outRow] at h
  case _ doi =>
    split at h
    case isTrue => simp [outRow] at h
    case isFalse =>
      split at h
      case _ => simp [outRow] at h
      case _ m =>
        split at h
        case isTrue =>
          simp only [outRow, Option.some.injEq] at h
          rw [← h]
          rfl
        case isFalse => simp [outRow] at h

lemma outRow_isSome (o : ItemOutcome) : (outRow o).isSome = appendedB o := by
  cases o <;> rfl

lemma rowsOf_cons (p : String × ItemOutcome) (tr : List (String × ItemOutcome)) :
    rowsOf (p :: tr) =
      match outRow p.2 with
      | none => rowsOf tr
      | some r => r :: rowsOf tr := by
  unfold rowsOf
  rw [List.filterMap_cons]
  cases outRow p.2 <;> rfl

lemma countRows_histLoop (orc : Orc) (u : String) :
    ∀ (us seen : List String),
      ((rowsOf (histLoop orc seen us)).countP (fun r => r.source == u)) =
        if u ∈ us ∧ u ∉ seen ∧ appendedB (processItem orc u u) = true then 1 else 0 := by
  intro us
  induction us with
  | nil => intro seen; simp [histLoop, rowsOf]
  | cons w rest ih =>
    intro seen
    by_cases hw : w ∈ seen
    · rw [show histLoop orc seen (w :: rest) = histLoop orc seen rest from by
        simp [histLoop, hw]]
      rw [ih seen]
      by_cases huw : u = w
      · subst huw
        simp [hw]
      · simp [List.mem_cons, huw]
    · rw [show histLoop orc seen (w :: rest) =
          (w, processItem orc w w) :: histLoop orc (w :: seen) rest from by
        simp [histLoop, hw]]
      rw [rowsOf_cons]
      cases ho : outRow (processItem orc w w) with
      | none =>
        have happ : appendedB (processItem orc w w) = false := by
          rw [← outRow_isSome, ho]
          rfl
        rw [ih (w :: seen)]
        by_cases huw : u = w
        · subst huw
          simp [List.mem_cons, happ]
        · simp [List.mem_cons, huw]
      | some r =>
        have hsrc : r.source = w := outRow_source orc w w ho
        have happ : appendedB (processItem orc w w) = true := by
          rw [← outRow_isSome, ho]
          rfl
        rw [List.countP_cons, ih (w :: seen)]
        by_cases huw : u = w
        · subst huw
          simp [List.mem_cons, hsrc, happ, hw]
        · have hb : (r.source == u) = false := by
            simp only [hsrc, beq_eq_false_iff_ne, ne_eq]
            exact fun hx => huw hx.symm
          simp [List.mem_cons, huw, hb]

/-! ## Claims -/

/-- C5: for every URL string containing a substring matching the identifier
pattern, `extract_doi` returns the (leftmost-greedy) matching substring
from stage 1 alone: the result matches the pattern, is a substring of the
URL, and is the same for every behaviour of the redirect-resolution and
page-retrieval services (no network call can influence it). -/
theorem C5_stage1_direct (url : String) (t : List Char)
    (ht : fullmatchDoi t = true) (hin : t <:+: url.toList) :
    ∃ rl : List Char, searchDoi url.toList = some rl ∧ fullmatchDoi rl = true ∧
      rl <:+: url.toList ∧
      ∀ o2 o3 : String → NetOutcome String, extractDoi o2 o3 url = some (String.mk rl) := by
  obtain ⟨u, v, huv⟩ := hin
  have huv2 : u ++ (t ++ v) = url.toList := by
    rw [← List.append_assoc]
    exact huv
  obtain ⟨rl, hrl⟩ := searchDoi_complete ht u v
  have hs : searchDoi url.toList = some rl := by rw [← huv2]; exact hrl
  obtain ⟨hm, hinf⟩ := searchDoi_sound hs
  refine ⟨rl, hs, hm, hinf, ?_⟩
  intro o2 o3
  unfold extractDoi
  rw [hs]

/-- Witness for C5 at the spec's scenario-A URL. -/
theorem C5_witness :
    ∃ rl : List Char,
      searchDoi (String.toList "https://doi.org/10.1000/xyz123") = some rl ∧
      fullmatchDoi rl = true ∧
      rl <:+: String.toList "https://doi.org/10.1000/xyz123" ∧
      ∀ o2 o3 : String → NetOutcome String,
        extractDoi o2 o3 "https://doi.org/10.1000/xyz123" = some (String.mk rl) :=
  C5_stage1_direct "https://doi.org/10.1000/xyz123" (String.toList "10.1000/xyz123")
    (by decide) ⟨String.toList "https://doi.org/", [], by decide⟩

/-- C6: `extract_doi` never raises, for any URL and any behaviour of the
network at stages 2 and 3 (both `raise` outcomes included): it is total,
and it returns `none` exactly when no stage yields a match — absence is
the normal, non-exceptional result. -/
theorem C6_resolver_total (o2 o3 : String → NetOutcome String) (url : String) :
    extractDoi o2 o3 url = none ↔
      stage1Hit url = false ∧ stage2Hit o2 url = false ∧ stage3Hit o3 url = false := by
  simp only [extractDoi, stage1Hit, stage2Hit, stage3Hit]
  cases hs1 : searchDoi url.toList with
  | some r => simp
  | none =>
    cases ho2 : o2 url with
    | raise =>
      cases ho3 : o3 url with
      | raise => simp
      | ok html => cases hm : searchMeta html.data <;> simp [hm]
    | ok f =>
      cases hs2 : searchDoi f.data with
      | some r => simp [hs2]
      | none =>
        cases ho3 : o3 url with
        | raise => simp [hs2]
        | ok html => cases hm : searchMeta html.data <;> simp [hs2, hm]

/-- C1 (amended): every identifier produced by stage 1 or stage 2 matches
the pattern `10.<4-9 digits>/<allowed-charset>+`; a stage-3 value, however,
is the `citation_doi` meta content taken verbatim, with no pattern check
applied to it. -/
theorem C1_resolver_values (o2 o3 : String → NetOutcome String) (url v : String)
    (h : extractDoi o2 o3 url = some v) :
    fullmatchDoi v.toList = true ∨
      (stage1Hit url = false ∧ stage2Hit o2 url = false ∧
        ∃ html, o3 url = NetOutcome.ok html ∧ searchMeta html.toList = some v.toList) := by
  unfold extractDoi at h
  cases hs1 : searchDoi url.toList with
  | some r =>
    simp only [hs1] at h
    left
    have hv : String.mk r = v := by exact Option.some.inj h
    rw [← hv]
    exact (searchDoi_sound hs1).1
  | none =>
    simp only [hs1] at h
    have h1f : stage1Hit url = false := by
      simp [stage1Hit, show searchDoi url.data = none from hs1]
    cases ho2 : o2 url with
    | ok f =>
      simp only [ho2] at h
      cases hs2 : searchDoi f.toList with
      | some r =>
        simp only [hs2] at h
        left
        have hv : String.mk r = v := by exact Option.some.inj h
        rw [← hv]
        exact (searchDoi_sound hs2).1
      | none =>
        simp only [hs2] at h
        have h2f : stage2Hit o2 url = false := by
          simp [stage2Hit, ho2, show searchDoi f.data = none from hs2]
        cases ho3 : o3 url with
        | raise =>
          simp only [ho3] at h
          exact absurd h (by simp)
        | ok html =>
          simp only [ho3] at h
          cases hmm : searchMeta html.toList with
          | none =>
            rw [hmm] at h
            simp at h
          | some m =>
            rw [hmm] at h
            simp only [Option.map_some'] at h
            have hv : String.mk m = v := by exact Option.some.inj h
            right
            refine ⟨h1f, h2f, html, rfl, ?_⟩
            rw [hmm, ← hv]
            rfl
    | raise =>
      simp only [ho2] at h
      have h2f : stage2Hit o2 url = false := by simp [stage2Hit, ho2]
      cases ho3 : o3 url with
      | raise =>
        simp only [ho3] at h
        exact absurd h (by simp)
      | ok html =>
        simp only [ho3] at h
        cases hmm : searchMeta html.toList with
        | none =>
          rw [hmm] at h
          simp at h
        | some m =>
          rw [hmm] at h
          simp only [Option.map_some'] at h
          have hv : String.mk m = v := by exact Option.some.inj h
          right
          refine ⟨h1f, h2f, html, rfl, ?_⟩
          rw [hmm, ← hv]
          rfl

/-- An HTML body whose `citation_doi` meta content is not a DOI. -/
def htmlZ : String := "<meta name=\"citation_doi\" content=\"zzz\">"

/-- A network where every HEAD request raises. -/
def o2raise : String → NetOutcome String := fun _ => NetOutcome.raise

/-- A network where every GET returns `htmlZ`. -/
def o3z : String → NetOutcome String := fun _ => NetOutcome.ok htmlZ

/-- Counterexample to C1 as stated: stage 3 returns the meta content
verbatim, so `extract_doi` can produce a value that does not match the
identifier pattern — the pattern is not a gate on stage-3 values. -/
theorem C1_counterexample :
    extractDoi o2raise o3z "https://example.org/paper" = some "zzz" ∧
      fullmatchDoi (String.toList "zzz") = false :=
  ⟨by decide, by decide⟩

/-- Witness for C1 (amended) at a concrete input resolved by stage 3. -/
theorem C1_witness :
    fullmatchDoi (String.toList "zzz") = true ∨
      (stage1Hit "https://example.org/paper" = false ∧
       stage2Hit o2raise "https://example.org/paper" = false ∧
       ∃ html, o3z "https://example.org/paper" = NetOutcome.ok html ∧
         searchMeta html.toList = some (String.toList "zzz")) :=
  C1_resolver_values o2raise o3z "https://example.org/paper" "zzz" (by decide)

/-- C2 (amended): `fetch_metadata` computes the year from the generic
`issued` date only — it never consults a published-in-print or
published-online date: the year depends only on the `issued` field, is the
first component of its `date-parts` when present, and is absent when
`issued` or its `date-parts` is missing. -/
theorem C2_year_from_issued_only :
    (∀ m1 m2 : CrossrefMsg, m1.issued = m2.issued → getYear m1 = getYear m2) ∧
    (∀ m : CrossrefMsg, m.issued = none → getYear m = Except.ok none) ∧
    (∀ (m : CrossrefMsg) (d : DateField), m.issued = some d → d.dateParts = none →
      getYear m = Except.ok none) ∧
    (∀ (m : CrossrefMsg) (d : DateField) (y : Int) (ys : List Int)
      (rest : List (List Int)), m.issued = some d →
      d.dateParts = some ((y :: ys) :: rest) → getYear m = Except.ok (some y)) := by
  refine ⟨?_, ?_, ?_, ?_⟩
  · intro m1 m2 h
    unfold getYear
    rw [h]
  · intro m h
    simp [getYear, h]
  · intro m d h1 h2
    simp [getYear, h1, h2]
  · intro m d y ys rest h1 h2
    simp [getYear, h1, h2]

/-- A registry payload carrying both a published-print year (1999) and an
issued year (2005). -/
def msgC2 : CrossrefMsg :=
  { title := some ["T"]
    containerTitle := none
    author := none
    issued := some { dateParts := some [[2005]] }
    publishedPrint := some { dateParts := some [[1999]] }
    publishedOnline := none
    volume := none
    issue := none
    page := none
    publisher := none }

/-- A registry returning `msgC2` for every identifier. -/
def regC2 : String → RegOutcome := fun _ => RegOutcome.resp 200 (some msgC2)

/-- Counterexample to C2 as stated: on a payload with published-print year
1999 and issued year 2005, the code takes the issued year 2005, while the
claimed preference chain would take 1999. -/
theorem C2_counterexample :
    getYear msgC2 = Except.ok (some 2005) ∧
    yearSpec msgC2 = some 1999 ∧
    fetchMetadataM regC2 "10.1234/abc" =
      Except.ok { title := "T", journal := "", authors := [], year := some 2005,
                  volume := "", issue := "", pages := "", publisher := "",
                  doi := "10.1234/abc" } ∧
    some (2005 : Int) ≠ some (1999 : Int) :=
  ⟨rfl, rfl, rfl, by decide⟩

/-- Witness for C2 (amended) at the concrete payload `msgC2`. -/
theorem C2_witness :
    getYear msgC2 = Except.ok (some 2005) :=
  C2_year_from_issued_only.2.2.2 msgC2 { dateParts := some [[2005]] } 2005 [] []
    rfl rfl

/-- C3: per-item isolation in both passes.  Whatever the external services
do — including raising on every call — the historical pass produces one
outcome for exactly the first occurrence of every URL of the blob, in
order, and the live pass produces one outcome for every URL of every
fetched tweet, in order: no per-URL failure removes later URLs from the
trace. -/
theorem C3_per_item_isolation (orc : Orc) (urls : List String) (handle : String)
    (tweets : List Tweet) :
    (histRun orc urls).map Prod.fst = pyDedup urls ∧
    (liveTrace orc handle tweets).map Prod.fst = allUrls tweets :=
  ⟨histLoop_map_fst orc urls [], liveTrace_map_fst orc handle tweets⟩

lemma primVal_ne_empty {p : PrimaryOutcome} {a : String} (h : primVal p = some a) :
    a ≠ "" := by
  cases p with
  | raise => simp [primVal] at h
  | resp status jsonRaise ab =>
    simp only [primVal] at h
    by_cases hst : status = 200
    · rw [if_pos hst] at h
      by_cases hjr : jsonRaise = true
      · rw [if_pos hjr] at h
        exact absurd h (by simp)
      · rw [if_neg hjr] at h
        cases ab with
        | none => exact absurd h (by simp)
        | some a0 =>
          have h2 : (if a0 = "" then (none : Option String) else some a0) = some a := h
          by_cases h0 : a0 = ""
          · rw [if_pos h0] at h2
            exact absurd h2 (by simp)
          · rw [if_neg h0] at h2
            have hA : a0 = a := Option.some.inj h2
            subst hA
            exact h0
    · rw [if_neg hst] at h
      exact absurd h (by simp)

/-- C4: for every identifier and every combination of primary-service and
secondary-service outcomes (success, exception, non-200 status, malformed
body, empty result), `fetch_abstract` returns a string — totality over all
outcome constructors embeds "never raises" — and it returns the empty
string exactly when neither source yields a (nonempty) abstract. -/
theorem C4_abstract_contract (p : PrimaryOutcome) (s : SecondaryOutcome) :
    fetchAbstract p s = "" ↔ primYields p = false ∧ secYields s = false := by
  unfold fetchAbstract primYields secYields
  cases hp : primVal p with
  | some a =>
    have ha := primVal_ne_empty hp
    simp [ha]
  | none => simp [bne]

/-- C7: cursor round trip.  Writing value `v` to the since_id file and
reading it back — across a simulated restart, the state being exactly the
persisted file contents — returns `v` unchanged; and a second write with a
smaller value still overwrites the first (last-write-wins, no max-merge). -/
theorem C7_cursor_roundtrip :
    (∀ (v : Nat) (st : Option (List Char)), readCursor (advanceCursor v st) = some v) ∧
    (∀ (v1 v2 : Nat) (st : Option (List Char)), v2 < v1 →
      readCursor (advanceCursor v2 (advanceCursor v1 st)) = some v2) :=
  ⟨readCursor_advance, fun _ v2 _ _ => readCursor_advance v2 _⟩

/-- Witness for C7: store 7, then advance with the smaller 3; the read
returns 3. -/
theorem C7_witness :
    readCursor (advanceCursor 3 (advanceCursor 7 none)) = some 3 :=
  C7_cursor_roundtrip.2 7 3 none (by decide)

/-- C8: a metadata failure is isolated.  If the registry fails for the DOI
resolved from URL `u`, the historical pass appends no row for `u` (the
failure surfaces as a caught, logged error, not a defaulted row), every
other URL is still processed, and the live pass's cursor write is
identical under every bundle of service behaviours — the failing item
cannot affect it. -/
theorem C8_metadata_failure_isolated (orc : Orc) (urls : List String) (u d : String)
    (e : PyErr) (_hu : u ∈ urls) (hd : extractDoi orc.o2 orc.o3 u = some d)
    (hne : d ≠ "") (hm : fetchMetadataM orc.reg d = Except.error e) :
    ((rowsOf (histRun orc urls)).countP (fun r => r.source == u)) = 0 ∧
    (histRun orc urls).map Prod.fst = pyDedup urls ∧
    (∀ (handle : String) (userOk : Bool) (apiResp : Option Nat → Option (List Tweet))
      (st : Option (List Char)) (orc2 : Orc),
      (liveRun orc handle userOk apiResp st).2 = (liveRun orc2 handle userOk apiResp st).2) := by
  have hpi : processItem orc u u = ItemOutcome.failed e := by
    simp only [processItem, hd, hm, if_neg hne]
  refine ⟨?_, histLoop_map_fst orc urls [], fun _ _ _ _ _ => rfl⟩
  have hc := countRows_histLoop orc u urls []
  rw [hpi] at hc
  simpa [appendedB] using hc

/-- A service bundle whose registry always answers 500 (metadata failure);
everything else raises or succeeds vacuously. -/
def orcFail : Orc :=
  { o2 := fun _ => NetOutcome.raise
    o3 := fun _ => NetOutcome.raise
    reg := fun _ => RegOutcome.resp 500 none
    prim := fun _ => PrimaryOutcome.raise
    sec := fun _ => SecondaryOutcome.raise
    appendOk := fun _ => true }

/-- Witness for C8 at a concrete run: one URL whose metadata lookup
answers 500. -/
theorem C8_witness :
    ((rowsOf (histRun orcFail ["https://doi.org/10.1000/xyz123"])).countP
      (fun r => r.source == "https://doi.org/10.1000/xyz123")) = 0 ∧
    (histRun orcFail ["https://doi.org/10.1000/xyz123"]).map Prod.fst =
      pyDedup ["https://doi.org/10.1000/xyz123"] ∧
    (∀ (handle : String) (userOk : Bool) (apiResp : Option Nat → Option (List Tweet))
      (st : Option (List Char)) (orc2 : Orc),
      (liveRun orcFail handle userOk apiResp st).2 =
        (liveRun orc2 handle userOk apiResp st).2) :=
  C8_metadata_failure_isolated orcFail ["https://doi.org/10.1000/xyz123"]
    "https://doi.org/10.1000/xyz123" "10.1000/xyz123" PyErr.http
    (by simp) (by decide) (by decide) (by rfl)

/-- C9: within one historical pass the `seen` set deduplicates: a URL
occurring any number of times in the blob whose processing succeeds
(appends) yields exactly one row. -/
theorem C9_historical_dedup (orc : Orc) (urls : List String) (u : String)
    (hu : u ∈ urls) (hs : appendedB (processItem orc u u) = true) :
    ((rowsOf (histRun orc urls)).countP (fun r => r.source == u)) = 1 := by
  have hc := countRows_histLoop orc u urls []
  rw [if_pos ⟨hu, by simp, hs⟩] at hc
  exact hc

/-- A registry payload with title and journal and no dates. -/
def msgOk : CrossrefMsg :=
  { title := some ["T"]
    containerTitle := some ["J"]
    author := none
    issued := none
    publishedPrint := none
    publishedOnline := none
    volume := none
    issue := none
    page := none
    publisher := none }

/-- A service bundle on which processing succeeds via stage 1 and the
registry. -/
def orcOk : Orc :=
  { o2 := fun _ => NetOutcome.raise
    o3 := fun _ => NetOutcome.raise
    reg := fun _ => RegOutcome.resp 200 (some msgOk)
    prim := fun _ => PrimaryOutcome.raise
    sec := fun _ => SecondaryOutcome.raise
    appendOk := fun _ => true }

/-- Witness for C9: the same URL three times in the blob, processing
succeeding; exactly one row results. -/
theorem C9_witness :
    ((rowsOf (histRun orcOk ["https://doi.org/10.1000/xyz123",
        "https://doi.org/10.1000/xyz123", "https://doi.org/10.1000/xyz123"])).countP
      (fun r => r.source == "https://doi.org/10.1000/xyz123")) = 1 :=
  C9_historical_dedup orcOk
    ["https://doi.org/10.1000/xyz123", "https://doi.org/10.1000/xyz123",
      "https://doi.org/10.1000/xyz123"]
    "https://doi.org/10.1000/xyz123" (by simp) (by decide)

/-- C10: a live fetch that observes no posts writes nothing: when the
timeline call returns an empty batch (or a null `data` field), the
since_id file is left exactly as it was. -/
theorem C10_empty_fetch_frame (userOk : Bool)
    (apiResp : Option Nat → Option (List Tweet)) (st : Option (List Char))
    (h : (apiResp (readCursor st)).getD [] = []) :
    (fetchNewTweets userOk apiResp st).2 = st := by
  unfold fetchNewTweets
  cases userOk with
  | false => rfl
  | true => simp [h]

/-- Witness for C10: a fetch answering no tweets leaves the absent cursor
file absent. -/
theorem C10_witness :
    (fetchNewTweets true (fun _ => none) none).2 = none :=
  C10_empty_fetch_frame true (fun _ => none) none rfl

end PaperFeed
